import Mathlib

/-!
Shallow embedding of the cinar/blocks core: classes `Bag` (bag.ts),
`Bitmap` (bitmap.ts), `Shape` and `Game` (game.ts), together with the
seven standard block bitmaps (blocks.ts).

Conventions of the embedding:
* JavaScript arrays read out of range yield `undefined`; the embedding
  returns the empty style `E` (or length 0) there.  Every game-level call
  site keeps its indices in range, so the two agree on the game's states.
* In-place mutation of objects is rendered as explicit state passing:
  each method that mutates its receiver returns the updated value.
* `Math.random()`-driven selection is parametrised by the drawn index.
* Offsets are integers (`Int`), since the source lets them go negative
  transiently before validation.
-/

namespace Blocks

/-- Cell styles: the empty style or a color string (bitmap.ts `Style2D`). -/
abbrev Style := String

/-- The empty style (bitmap.ts: `const E = ""`). -/
def E : Style := ""

/-- bitmap.ts `class Bitmap`: a 2D grid of styles. -/
structure Bitmap where
  data : List (List Style)
deriving DecidableEq

instance : Inhabited Bitmap := ⟨⟨[]⟩⟩

/-- `Bitmap.rows()`: number of rows. -/
def Bitmap.rows (b : Bitmap) : Nat := b.data.length

/-- `Bitmap.cols()`: length of the first row (JS `this.data[0].length`). -/
def Bitmap.cols (b : Bitmap) : Nat := (b.data.headD []).length

/-- Cell read `data[r][c]`. -/
def Bitmap.cell (b : Bitmap) (r c : Nat) : Style := (b.data.getD r []).getD c E

/-- Cell read at `Int` indices; negative indices read as `E`. -/
def Bitmap.cellI (b : Bitmap) (r c : Int) : Style :=
  if 0 ≤ r ∧ 0 ≤ c then b.cell r.toNat c.toNat else E

/-- `Bitmap.emptyWithSize(rows, cols)`: all cells `E`. -/
def Bitmap.emptyWithSize (rows cols : Nat) : Bitmap :=
  ⟨List.replicate rows (List.replicate cols E)⟩

/-- `Bitmap.rotate()`: `rotated[col][row] = data[rows - row - 1][col]`. -/
def Bitmap.rotate (b : Bitmap) : Bitmap :=
  ⟨(List.range b.cols).map fun col =>
    (List.range b.rows).map fun row => b.cell (b.rows - 1 - row) col⟩

/-- `Bitmap.allRotations()`: `[this, r, r∘r, r∘r∘r]`. -/
def Bitmap.allRotations (b : Bitmap) : List Bitmap :=
  [b, b.rotate, b.rotate.rotate, b.rotate.rotate.rotate]

/-- `Bitmap.isOverlapping(rowOffset, colOffset, other)`: scans the part of
the receiver that lands inside `other` when the receiver is placed at the
given offset onto `other`, looking for a position filled in both. -/
def Bitmap.isOverlapping (b : Bitmap) (rowOffset colOffset : Int) (other : Bitmap) : Bool :=
  let maxRows : Int := min (other.rows : Int) (rowOffset + b.rows)
  let maxCols : Int := min (other.cols : Int) (colOffset + b.cols)
  (List.range (maxRows - rowOffset).toNat).any fun i =>
    (List.range (maxCols - colOffset).toNat).any fun j =>
      b.cell i j != E && other.cellI (rowOffset + i) (colOffset + j) != E

/-- `Bitmap.copyFrom(rowOffset, colOffset, other)`: overwrite the receiver's
cells in the clipped region with the non-`E` cells of `other`. -/
def Bitmap.copyFrom (b : Bitmap) (rowOffset colOffset : Int) (other : Bitmap) : Bitmap :=
  let maxRows : Int := min (b.rows : Int) (rowOffset + other.rows)
  let maxCols : Int := min (b.cols : Int) (colOffset + other.cols)
  ⟨(List.range b.data.length).map fun (r : Nat) =>
    (List.range (b.data.getD r []).length).map fun (c : Nat) =>
      if rowOffset ≤ (r : Int) ∧ (r : Int) < maxRows ∧ colOffset ≤ (c : Int) ∧ (c : Int) < maxCols then
        let w := other.cellI ((r : Int) - rowOffset) ((c : Int) - colOffset)
        if w ≠ E then w else b.cell r c
      else b.cell r c⟩

/-- `Bitmap.isRowFilled(row)`: no cell of the row is `E`. -/
def Bitmap.isRowFilled (b : Bitmap) (row : Nat) : Bool :=
  (List.range b.cols).all fun col => b.cell row col != E

/-- `Bitmap.removeRow(row)`: splice the row out, then unshift a fresh row of
`this.cols()` copies of `E` (the width is computed after the splice, as in
the source). -/
def Bitmap.removeRow (b : Bitmap) (row : Nat) : Bitmap :=
  let spliced := b.data.eraseIdx row
  ⟨List.replicate (Bitmap.mk spliced).cols E :: spliced⟩

/-- The `for (let row = rows - 1; row >= count; )` loop of
`Bitmap.removeFilledRows()`, with explicit fuel.  Each iteration either
removes the scanned row and increments `count` (re-examining the same
index) or decrements the index; the quantity `row - count` drops by one
per iteration, so `rows` units of fuel run the loop to completion. -/
def Bitmap.removeFilledRowsAux : Nat → Bitmap → Nat → Nat → Bitmap × Nat
  | 0, b, _, count => (b, count)
  | fuel + 1, b, row, count =>
    if count ≤ row then
      if b.isRowFilled row then
        Bitmap.removeFilledRowsAux fuel (b.removeRow row) row (count + 1)
      else if row = 0 then (b, count)
      else Bitmap.removeFilledRowsAux fuel b (row - 1) count
    else (b, count)

/-- `Bitmap.removeFilledRows()`: remove the filled rows bottom-to-top and
return the new grid with the removal count. -/
def Bitmap.removeFilledRows (b : Bitmap) : Bitmap × Nat :=
  if b.rows = 0 then (b, 0)
  else Bitmap.removeFilledRowsAux b.rows b (b.rows - 1) 0

/-- bag.ts `class Bag<T>`: values with a current index. -/
structure Bag (α : Type) where
  values : List α
  index : Nat
deriving DecidableEq

/-- `Bag.current()`: the value at the index (JS `values[index]`). -/
def Bag.current {α : Type} [Inhabited α] (bag : Bag α) : α :=
  bag.values.getD bag.index default

/-- `Bag.next()`: advance the index by one, wrapping around. -/
def Bag.next {α : Type} (bag : Bag α) : Bag α :=
  { bag with index := (bag.index + 1) % bag.values.length }

/-- `Bag.previous()`: retreat the index by one, wrapping around
(JS `(length + index - 1) % length`). -/
def Bag.previous {α : Type} (bag : Bag α) : Bag α :=
  { bag with index := (bag.values.length + bag.index - 1) % bag.values.length }

/-- `Bag.random()`: `index = Math.floor(Math.random() * length)`.  The
draw is parametrised by `k`; `k % length` ranges over exactly the indices
the source can select. -/
def Bag.randomSelect {α : Type} (bag : Bag α) (k : Nat) : Bag α :=
  { bag with index := k % bag.values.length }

/-- In-place mutation of the current element, rendered functionally. -/
def Bag.setCurrent {α : Type} (bag : Bag α) (a : α) : Bag α :=
  { bag with values := bag.values.set bag.index a }

/-- `n` successive calls of `Bag.next()`. -/
def Bag.nextN {α : Type} : Nat → Bag α → Bag α
  | 0, bag => bag
  | n + 1, bag => Bag.nextN n bag.next

/-- blocks.ts color `B`. -/
def cB : Style := "#0000ff"

/-- blocks.ts color `C`. -/
def cC : Style := "#00ffff"

/-- blocks.ts color `G`. -/
def cG : Style := "#00ff00"

/-- blocks.ts color `O`. -/
def cO : Style := "#ff7f00"

/-- blocks.ts color `P`. -/
def cP : Style := "#800080"

/-- blocks.ts color `R`. -/
def cR : Style := "#ff0000"

/-- blocks.ts color `Y`. -/
def cY : Style := "#ffff00"

/-- blocks.ts `BLOCK_I`. -/
def BLOCK_I : Bitmap := ⟨[[cC, cC, cC, cC]]⟩

/-- blocks.ts `BLOCK_J`. -/
def BLOCK_J : Bitmap := ⟨[[cB, E, E], [cB, cB, cB]]⟩

/-- blocks.ts `BLOCK_L`. -/
def BLOCK_L : Bitmap := ⟨[[E, E, cO], [cO, cO, cO]]⟩

/-- blocks.ts `BLOCK_O`. -/
def BLOCK_O : Bitmap := ⟨[[cY, cY], [cY, cY]]⟩

/-- blocks.ts `BLOCK_S`. -/
def BLOCK_S : Bitmap := ⟨[[E, cG, cG], [cG, cG, E]]⟩

/-- blocks.ts `BLOCK_T`. -/
def BLOCK_T : Bitmap := ⟨[[cP, cP, cP], [E, cP, E]]⟩

/-- blocks.ts `BLOCK_Z`. -/
def BLOCK_Z : Bitmap := ⟨[[cR, cR, E], [E, cR, cR]]⟩

/-- blocks.ts `BLOCKS`. -/
def BLOCKS : List Bitmap :=
  [BLOCK_I, BLOCK_J, BLOCK_L, BLOCK_O, BLOCK_S, BLOCK_T, BLOCK_Z]

/-- game.ts (shape module) `class Shape`: a bag of the four rotations plus
a position. -/
structure Shape where
  rotations : Bag Bitmap
  rowOffset : Int
  colOffset : Int
deriving DecidableEq

instance : Inhabited Shape := ⟨⟨⟨[], 0⟩, 0, 0⟩⟩

/-- The `Shape` constructor: `rotations = new Bag(bitmap.allRotations())`,
offsets zero. -/
def Shape.ofBitmap (b : Bitmap) : Shape := ⟨⟨b.allRotations, 0⟩, 0, 0⟩

/-- `Shape.asShapes(bitmaps)`. -/
def Shape.asShapes (bs : List Bitmap) : List Shape := bs.map Shape.ofBitmap

/-- `this.rotations.current()`: the bitmap of the current rotation. -/
def Shape.current (s : Shape) : Bitmap := s.rotations.current

/-- `Shape.isWithin(board)`: bounds check (`colOffset ≥ 0` and the two
upper bounds; `rowOffset ≥ 0` is not checked, as in the source). -/
def Shape.isWithin (s : Shape) (board : Bitmap) : Bool :=
  if s.colOffset < 0 then false
  else if s.colOffset + s.current.cols > (board.cols : Int) then false
  else if s.rowOffset + s.current.rows > (board.rows : Int) then false
  else true

/-- `Shape.isOverlapping(board)`: the current rotation, placed at the
current offsets, against the board. -/
def Shape.isOverlapping (s : Shape) (board : Bitmap) : Bool :=
  s.current.isOverlapping s.rowOffset s.colOffset board

/-- `Shape.changeColOffset(colOffset, board)`: tentatively set the column
offset, then revert when out of bounds or overlapping. -/
def Shape.changeColOffset (s : Shape) (colOffset : Int) (board : Bitmap) : Shape × Bool :=
  let s1 : Shape := { s with colOffset := colOffset }
  if !s1.isWithin board || s1.isOverlapping board then (s, false) else (s1, true)

/-- `Shape.left(board)`. -/
def Shape.left (s : Shape) (board : Bitmap) : Shape × Bool :=
  s.changeColOffset (s.colOffset - 1) board

/-- `Shape.right(board)`. -/
def Shape.right (s : Shape) (board : Bitmap) : Shape × Bool :=
  s.changeColOffset (s.colOffset + 1) board

/-- `Shape.down(board)`: tentatively increment the row offset, then revert
when out of bounds or overlapping. -/
def Shape.down (s : Shape) (board : Bitmap) : Shape × Bool :=
  let s1 : Shape := { s with rowOffset := s.rowOffset + 1 }
  if !s1.isWithin board || s1.isOverlapping board then (s, false) else (s1, true)

/-- `Shape.fitWithin(board)`: clamp `colOffset` below by 0 and above by
`boardCols - currentCols`, and clamp `rowOffset` above by
`boardRows - currentRows` (never below 0), in the source's order. -/
def Shape.fitWithin (s : Shape) (board : Bitmap) : Shape :=
  let s1 : Shape := if s.colOffset < 0 then { s with colOffset := 0 } else s
  let s2 : Shape :=
    if s1.colOffset + s1.current.cols > (board.cols : Int) then
      { s1 with colOffset := (board.cols : Int) - s1.current.cols }
    else s1
  if s2.rowOffset + s2.current.rows > (board.rows : Int) then
    { s2 with rowOffset := (board.rows : Int) - s2.current.rows }
  else s2

/-- `Shape.rotate(board)`: advance the rotation, clamp into the board,
and on overlap revert the rotation (the clamped offsets are kept). -/
def Shape.rotate (s : Shape) (board : Bitmap) : Shape × Bool :=
  let s1 : Shape := { s with rotations := s.rotations.next }
  let s2 : Shape := s1.fitWithin board
  if s2.isOverlapping board then ({ s2 with rotations := s2.rotations.previous }, false)
  else (s2, true)

/-- `Shape.resetPosition(board)`: top row, horizontally centered
(`Math.floor` division); returns whether the piece does not overlap. -/
def Shape.resetPosition (s : Shape) (board : Bitmap) : Shape × Bool :=
  let s1 : Shape :=
    { s with
      rowOffset := 0
      colOffset := ((board.cols : Int) - s.current.cols).fdiv 2 }
  (s1, !s1.isOverlapping board)

/-- `Shape.copyTo(board)`. -/
def Shape.copyTo (s : Shape) (board : Bitmap) : Bitmap :=
  board.copyFrom s.rowOffset s.colOffset s.current

/-- game.ts `enum State`. -/
inductive GState where
  | playing
  | paused
  | gameOver
deriving DecidableEq

/-- game.ts `class Game`, restricted to the core state (the canvas,
timing and event plumbing carry no game state). -/
structure GameState where
  board : Bitmap
  shapes : Bag Shape
  state : GState
  lines : Nat
  score : Nat
deriving DecidableEq

/-- `Game.nextShape()`: select a random shape (`rnd` is the drawn index),
reset its position, and set `GAME_OVER` when it overlaps. -/
def Game.nextShape (g : GameState) (rnd : Nat) : GameState :=
  let shapes1 := g.shapes.randomSelect rnd
  let p := shapes1.current.resetPosition g.board
  let shapes2 := shapes1.setCurrent p.1
  if p.2 then { g with shapes := shapes2 }
  else { g with shapes := shapes2, state := GState.gameOver }

/-- `Game.moveDown()`: move the current shape down; on failure commit the
shape, clear filled rows, update the line and score counters, and select
the next shape. -/
def Game.moveDown (g : GameState) (rnd : Nat) : GameState × Bool :=
  let p := g.shapes.current.down g.board
  if p.2 then ({ g with shapes := g.shapes.setCurrent p.1 }, true)
  else
    let board1 := g.shapes.current.copyTo g.board
    let q := board1.removeFilledRows
    let lines1 := g.lines + q.2
    let score1 := g.score + (if q.2 < 4 then lines1 * 10 else 1000)
    (Game.nextShape { g with board := q.1, lines := lines1, score := score1 } rnd, false)

/-- The number of rows cleared by the landing that would run from `g`. -/
def Game.landingCleared (g : GameState) : Nat :=
  ((g.shapes.current.copyTo g.board).removeFilledRows).2

/-- `Game.throwDown()`: `while (this.moveDown()) {}` with explicit fuel,
counting the `moveDown` calls.  The loop exits right after the first
failed `moveDown`, so the landing processing inside `moveDown` runs
exactly once, on that final call. -/
def Game.throwDownAux : Nat → GameState → Nat → Option (GameState × Nat)
  | 0, _, _ => none
  | fuel + 1, g, rnd =>
    let p := Game.moveDown g rnd
    if p.2 then (Game.throwDownAux fuel p.1 rnd).map fun q => (q.1, q.2 + 1)
    else some (p.1, 1)

/-- The call count of a finished hard drop (`0` when the fuel ran out). -/
def Game.landingCalls (o : Option (GameState × Nat)) : Nat :=
  match o with
  | none => 0
  | some p => p.2

end Blocks

namespace Blocks

/-! ### Helper lemmas -/

/-- Reading a mapped range at an in-range index. -/
theorem getD_map_range {β : Type} (f : Nat → β) (d : β) {n i : Nat} (h : i < n) :
    ((List.range n).map f).getD i d = f i := by
  rw [List.getD_eq_getElem ((List.range n).map f) d (by simpa using h)]
  simp

/-- `Bag.nextN` keeps the values and advances the index `n` steps mod the
length. -/
theorem Bag.nextN_spec {α : Type} (n : Nat) (bag : Bag α)
    (hlen : 1 ≤ bag.values.length) (hidx : bag.index < bag.values.length) :
    (Bag.nextN n bag).values = bag.values ∧
      (Bag.nextN n bag).index = (bag.index + n) % bag.values.length := by
  induction n generalizing bag with
  | zero => exact ⟨rfl, (Nat.mod_eq_of_lt hidx).symm⟩
  | succ n ih =>
    have hnext : bag.next.values = bag.values := rfl
    have hlt : bag.next.index < bag.next.values.length := by
      simpa [Bag.next, hnext] using Nat.mod_lt _ (by omega)
    obtain ⟨hv, hi⟩ := ih bag.next (by simpa [hnext] using hlen) hlt
    refine ⟨by simpa [hnext] using hv, ?_⟩
    rw [show Bag.nextN (n + 1) bag = Bag.nextN n bag.next from rfl, hi]
    show ((bag.index + 1) % bag.values.length + n) % bag.values.length = _
    rw [Nat.mod_add_mod]
    congr 1
    omega

/-! ### C9: the cyclic container -/

/-- Claim C9: for every `Bag` of length at least 1 whose index is in
range, calling `next` `length` times restores the bag (hence the current
value), and `previous` is the exact inverse of `next`: a `previous` after
a `next`, and a `next` after a `previous`, restore the original index and
current value. -/
theorem Bag.next_previous_cycle {α : Type} (bag : Bag α)
    (hlen : 1 ≤ bag.values.length) (hidx : bag.index < bag.values.length) :
    Bag.nextN bag.values.length bag = bag ∧
      bag.next.previous = bag ∧ bag.previous.next = bag := by
  obtain ⟨v, i⟩ := bag
  simp only [Bag.next, Bag.previous] at *
  refine ⟨?_, ?_, ?_⟩
  · obtain ⟨hv, hi⟩ := Bag.nextN_spec v.length ⟨v, i⟩ hlen hidx
    have : (Bag.nextN v.length ⟨v, i⟩) = ⟨(Bag.nextN v.length ⟨v, i⟩).values, (Bag.nextN v.length ⟨v, i⟩).index⟩ := rfl
    rw [this, hv, hi, Nat.add_mod_right, Nat.mod_eq_of_lt hidx]
  · simp only [Bag.mk.injEq, and_true, true_and]
    rcases Nat.lt_or_ge (i + 1) v.length with h | h
    · rw [Nat.mod_eq_of_lt h]
      rw [show v.length + (i + 1) - 1 = v.length + i by omega, Nat.add_mod_left]
      exact Nat.mod_eq_of_lt hidx
    · have hii : i + 1 = v.length := by omega
      rw [hii, Nat.mod_self]
      rw [show v.length + 0 - 1 = v.length - 1 by omega]
      rw [Nat.mod_eq_of_lt (show v.length - 1 < v.length by omega)]
      omega
  · simp only [Bag.mk.injEq, and_true, true_and]
    rcases Nat.eq_zero_or_pos i with h | h
    · subst h
      rw [show v.length + 0 - 1 = v.length - 1 by omega]
      rw [Nat.mod_eq_of_lt (show v.length - 1 < v.length by omega)]
      rw [show v.length - 1 + 1 = v.length by omega, Nat.mod_self]
    · rw [show v.length + i - 1 = v.length + (i - 1) by omega, Nat.add_mod_left]
      rw [Nat.mod_eq_of_lt (show i - 1 < v.length by omega)]
      rw [show i - 1 + 1 = i by omega]
      exact Nat.mod_eq_of_lt hidx

/-- Witness for C9 at the concrete four-element bag of rotation states. -/
theorem Bag.next_previous_cycle_witness :
    Bag.nextN 4 (⟨[10, 20, 30, 40], 1⟩ : Bag Nat) = ⟨[10, 20, 30, 40], 1⟩ ∧
      (⟨[10, 20, 30, 40], 1⟩ : Bag Nat).next.previous = ⟨[10, 20, 30, 40], 1⟩ ∧
      (⟨[10, 20, 30, 40], 1⟩ : Bag Nat).previous.next = ⟨[10, 20, 30, 40], 1⟩ :=
  Bag.next_previous_cycle (⟨[10, 20, 30, 40], 1⟩ : Bag Nat) (by decide) (by decide)

/-! ### C6: clockwise rotation -/

/-- Claim C6: for every grid with `R ≥ 1` rows and `C ≥ 1` columns,
`rotate` returns a `C × R` grid whose cell `[c][r]` is the original cell
`[R - 1 - r][c]` for all valid `r`, `c` (and, being a pure function of
the embedding, it does not mutate its argument). -/
theorem Bitmap.rotate_clockwise_spec (b : Bitmap)
    (h1 : 1 ≤ b.rows) (h2 : 1 ≤ b.cols) :
    b.rotate.rows = b.cols ∧ b.rotate.cols = b.rows ∧
      ∀ r c, r < b.rows → c < b.cols →
        b.rotate.cell c r = b.cell (b.rows - 1 - r) c := by
  refine ⟨by simp [Bitmap.rotate, Bitmap.rows], ?_, ?_⟩
  · show (b.rotate.data.headD []).length = b.rows
    rw [show b.rotate.data = (List.range b.cols).map fun col =>
        (List.range b.rows).map fun row => b.cell (b.rows - 1 - row) col from rfl]
    obtain ⟨k, hk⟩ : ∃ k, b.cols = k + 1 := ⟨b.cols - 1, by omega⟩
    rw [hk, List.range_succ_eq_map]
    simp
  · intro r c hr hc
    show (((List.range b.cols).map fun col =>
        (List.range b.rows).map fun row => b.cell (b.rows - 1 - row) col).getD c []).getD r E =
      b.cell (b.rows - 1 - r) c
    rw [getD_map_range _ _ hc]
    exact getD_map_range _ _ hr

/-- Witness for C6 at the J block (a 2 × 3 grid). -/
theorem Bitmap.rotate_clockwise_spec_witness :
    BLOCK_J.rotate.rows = 3 ∧ BLOCK_J.rotate.cols = 2 ∧
      BLOCK_J.rotate.cell 2 1 = BLOCK_J.cell 0 2 :=
  ⟨(Bitmap.rotate_clockwise_spec BLOCK_J (by decide) (by decide)).1,
   (Bitmap.rotate_clockwise_spec BLOCK_J (by decide) (by decide)).2.1,
   (Bitmap.rotate_clockwise_spec BLOCK_J (by decide) (by decide)).2.2 1 2
     (by decide) (by decide)⟩

/-! ### C3: overlap testing -/

/-- The overlap predicate exactly as claim C3 words it (for comparison
with the source function, not taken from the source): some cell of
`other`, placed at the given offset onto the *receiver's* coordinate
space, is non-`E` in both grids, and cells of `other` falling outside the
receiver's bounds are ignored. -/
def overlapsClaim (b : Bitmap) (ro co : Nat) (other : Bitmap) : Bool :=
  decide (∃ i, i < other.rows ∧ ∃ j, j < other.cols ∧
    ro + i < b.rows ∧ co + j < b.cols ∧
    other.cell i j ≠ E ∧ b.cell (ro + i) (co + j) ≠ E)

/-- Counterexample to claim C3: a filled 1×1 receiver tested at offset
(1,1) against a 2×2 grid whose only filled cell is (1,1).  The source
places the *receiver* at the offset onto `other`, so it reports an
overlap; the claim's reading (place `other` onto the receiver) finds an
empty overlap rectangle and reports none. -/
theorem isOverlapping_claim_counterexample :
    Bitmap.isOverlapping ⟨[["x"]]⟩ 1 1 ⟨[[E, E], [E, "x"]]⟩ = true ∧
      overlapsClaim ⟨[["x"]]⟩ 1 1 ⟨[[E, E], [E, "x"]]⟩ = false := by
  decide

/-- Claim C3 as amended: `isOverlapping rowOffset colOffset other` is true
iff some cell of the *receiver*, placed at the given offset onto `other`'s
coordinate space, is non-`E` in both grids within the overlapping
rectangle; cells of the receiver falling outside `other`'s bounds are
never checked. -/
theorem Bitmap.isOverlapping_iff (b other : Bitmap) (ro co : Nat) :
    b.isOverlapping ro co other = true ↔
      ∃ i j, i < b.rows ∧ j < b.cols ∧ ro + i < other.rows ∧ co + j < other.cols ∧
        b.cell i j ≠ E ∧ other.cell (ro + i) (co + j) ≠ E := by
  have hcell : ∀ i j : Nat, other.cellI ((ro : Int) + (i : Int)) ((co : Int) + (j : Int)) =
      other.cell (ro + i) (co + j) := by
    intro i j
    unfold Bitmap.cellI
    rw [if_pos ⟨by omega, by omega⟩]
    congr 1 <;> omega
  unfold Bitmap.isOverlapping
  simp only [List.any_eq_true, List.mem_range, Bool.and_eq_true, bne_iff_ne, ne_eq]
  constructor
  · rintro ⟨i, hi, j, hj, h1, h2⟩
    rw [Int.lt_toNat] at hi hj
    have hm1 : min ((other.rows : Int)) ((ro : Int) + b.rows) ≤ other.rows := min_le_left _ _
    have hm2 : min ((other.rows : Int)) ((ro : Int) + b.rows) ≤ (ro : Int) + b.rows :=
      min_le_right _ _
    have hm3 : min ((other.cols : Int)) ((co : Int) + b.cols) ≤ other.cols := min_le_left _ _
    have hm4 : min ((other.cols : Int)) ((co : Int) + b.cols) ≤ (co : Int) + b.cols :=
      min_le_right _ _
    refine ⟨i, j, by omega, by omega, by omega, by omega, h1, ?_⟩
    rw [← hcell i j]
    exact h2
  · rintro ⟨i, j, h1, h2, h3, h4, h5, h6⟩
    have hi : (i : Int) < min ((other.rows : Int)) ((ro : Int) + b.rows) - ro := by
      have := lt_min (show (ro : Int) + i < other.rows by omega)
        (show (ro : Int) + i < (ro : Int) + b.rows by omega)
      omega
    have hj : (j : Int) < min ((other.cols : Int)) ((co : Int) + b.cols) - co := by
      have := lt_min (show (co : Int) + j < other.cols by omega)
        (show (co : Int) + j < (co : Int) + b.cols by omega)
      omega
    refine ⟨i, by rw [Int.lt_toNat]; exact hi, j, by rw [Int.lt_toNat]; exact hj, h5, ?_⟩
    rw [hcell i j]
    exact h6

/-! ### C7: position reset -/

/-- Claim C7: `resetPosition` sets `rowOffset = 0` and
`colOffset = floor((board.cols - currentCols) / 2)`, and returns false
exactly when the piece at that position overlaps the board; each of the 7
standard shapes reset on the all-empty 15×10 board returns true. -/
theorem Shape.resetPosition_spec :
    (∀ (s : Shape) (board : Bitmap),
      (s.resetPosition board).1.rowOffset = 0 ∧
      (s.resetPosition board).1.colOffset = ((board.cols : Int) - s.current.cols).fdiv 2 ∧
      ((s.resetPosition board).2 = false ↔
        (s.resetPosition board).1.isOverlapping board = true)) ∧
    ((Shape.asShapes BLOCKS).all fun s =>
      (s.resetPosition (Bitmap.emptyWithSize 15 10)).2) = true := by
  refine ⟨fun s board => ⟨rfl, rfl, ?_⟩, by decide⟩
  show (!(s.resetPosition board).1.isOverlapping board) = false ↔ _
  simp

/-! ### C2: removing filled rows -/

/-- Erasing the last index is `dropLast`. -/
theorem eraseIdx_length_sub_one {α : Type} : ∀ l : List α,
    l.eraseIdx (l.length - 1) = l.dropLast := by
  intro l
  induction l with
  | nil => rfl
  | cons a l ih =>
    cases l with
    | nil => rfl
    | cons x t =>
      show (a :: x :: t).eraseIdx (t.length + 1) = _
      rw [List.eraseIdx_cons_succ]
      rw [show t.length = (x :: t).length - 1 from rfl, ih]
      rfl

/-- Reading `dropLast` strictly before the last index. -/
theorem getD_dropLast {α : Type} (l : List α) (k : Nat) (d : α)
    (h : k < l.length - 1) : l.dropLast.getD k d = l.getD k d := by
  have h1 : k < l.dropLast.length := by simpa using h
  have h2 : k < l.length := by omega
  rw [List.getD_eq_getElem _ _ h1, List.getD_eq_getElem _ _ h2]
  exact List.getElem_dropLast l k h1

/-- When no row in `[count, row]` is filled, the scan loop just walks to
the top and returns its arguments. -/
theorem Bitmap.removeFilledRowsAux_no_filled (fuel : Nat) :
    ∀ (b : Bitmap) (row count : Nat),
      (∀ r, count ≤ r → r ≤ row → b.isRowFilled r = false) →
      Bitmap.removeFilledRowsAux fuel b row count = (b, count) := by
  induction fuel with
  | zero => intro b row count _; rfl
  | succ fuel ih =>
    intro b row count h
    show (if count ≤ row then
        if b.isRowFilled row then
          Bitmap.removeFilledRowsAux fuel (b.removeRow row) row (count + 1)
        else if row = 0 then (b, count)
        else Bitmap.removeFilledRowsAux fuel b (row - 1) count
      else (b, count)) = (b, count)
    by_cases hc : count ≤ row
    · rw [if_pos hc, h row hc le_rfl]
      by_cases hr : row = 0
      · simp [hr]
      · rw [if_neg (by simp), if_neg hr]
        exact ih b (row - 1) count fun r h1 h2 => h r h1 (by omega)
    · rw [if_neg hc]

/-- Counterexample to claim C2 as stated for every grid: on the 1×1 grid
whose single (bottom) row is filled, the removal does return count 1, but
the resulting top row has width 0, not an all-`E` row of the grid's
width.  (At this input the source itself computes `this.cols()` on the
empty spliced array, i.e. reads `undefined[0].length` — a TypeError.) -/
theorem removeFilledRows_one_row_counterexample :
    (Bitmap.removeFilledRows ⟨[["x"]]⟩).2 = 1 ∧
      (Bitmap.removeFilledRows ⟨[["x"]]⟩).1 ≠
        ⟨[List.replicate (Bitmap.cols ⟨[["x"]]⟩) E]⟩ ∧
      (Bitmap.removeFilledRows ⟨[["x"]]⟩).1 = ⟨[[]]⟩ := by
  decide

/-- Claim C2 as amended (restricted to grids of at least two rows): when
the bottom row is filled and no other row is, `removeFilledRows` returns
count 1 and the grid with a fresh all-`E` row of the grid's width on top
of the remaining rows, each shifted down by one and otherwise
unchanged. -/
theorem Bitmap.removeFilledRows_single_bottom_row (b : Bitmap)
    (hrows : 2 ≤ b.rows)
    (hbot : b.isRowFilled (b.rows - 1) = true)
    (hoth : ∀ r, r < b.rows - 1 → b.isRowFilled r = false) :
    b.removeFilledRows = (⟨List.replicate b.cols E :: b.data.dropLast⟩, 1) := by
  obtain ⟨n, hn⟩ : ∃ n, b.rows = n + 2 := ⟨b.rows - 2, by omega⟩
  have hlen : b.data.length = n + 2 := hn
  obtain ⟨h, t, hht⟩ : ∃ h t, b.data = h :: t := by
    cases hd : b.data with
    | nil => rw [hd] at hlen; simp at hlen
    | cons x xs => exact ⟨x, xs, rfl⟩
  have htlen : t.length = n + 1 := by
    have := hlen
    rw [hht] at this
    simpa using this
  -- the spliced list keeps the head, so its width is the grid's width
  have hb' : b.removeRow (n + 1) = ⟨List.replicate b.cols E :: b.data.dropLast⟩ := by
    unfold Bitmap.removeRow
    have he : b.data.eraseIdx (n + 1) = b.data.dropLast := by
      rw [show n + 1 = b.data.length - 1 by omega]
      exact eraseIdx_length_sub_one b.data
    rw [he]
    have hcols : (Bitmap.mk b.data.dropLast).cols = b.cols := by
      show (b.data.dropLast.headD []).length = (b.data.headD []).length
      rw [hht]
      rw [show (h :: t).dropLast = h :: t.dropLast from by
        cases t with
        | nil => simp at htlen
        | cons x xs => rfl]
      rfl
    show (⟨List.replicate (Bitmap.mk b.data.dropLast).cols E :: b.data.dropLast⟩ : Bitmap) =
      ⟨List.replicate b.cols E :: b.data.dropLast⟩
    rw [hcols]
  set b' : Bitmap := ⟨List.replicate b.cols E :: b.data.dropLast⟩ with hb'def
  have hb'cols : b'.cols = b.cols := by
    show ((List.replicate b.cols E :: b.data.dropLast).headD []).length = b.cols
    simp
  have hb'rowsFilled : ∀ r, 1 ≤ r → r ≤ n + 1 → b'.isRowFilled r = false := by
    intro r h1 h2
    obtain ⟨k, rfl⟩ : ∃ k, r = k + 1 := ⟨r - 1, by omega⟩
    have hrow : b'.data.getD (k + 1) [] = b.data.getD k [] := by
      show (List.replicate b.cols E :: b.data.dropLast).getD (k + 1) [] = _
      rw [List.getD_cons_succ]
      exact getD_dropLast b.data k [] (by omega)
    have := hoth k (by omega)
    unfold Bitmap.isRowFilled at this ⊢
    unfold Bitmap.cell at this ⊢
    rw [hb'cols, hrow]
    exact this
  -- run the loop: one removal, then a clean walk to the top
  unfold Bitmap.removeFilledRows
  rw [if_neg (show ¬b.rows = 0 by omega)]
  rw [show b.rows = (n + 1) + 1 by omega]
  show (if 0 ≤ n + 1 then
      if b.isRowFilled (n + 1) then
        Bitmap.removeFilledRowsAux (n + 1) (b.removeRow (n + 1)) (n + 1) (0 + 1)
      else if n + 1 = 0 then (b, 0)
      else Bitmap.removeFilledRowsAux (n + 1) b (n + 1 - 1) 0
    else (b, 0)) = (b', 1)
  rw [if_pos (Nat.zero_le _), show b.isRowFilled (n + 1) = true from by
    rw [show n + 1 = b.rows - 1 by omega]; exact hbot]
  rw [if_pos rfl, hb']
  exact Bitmap.removeFilledRowsAux_no_filled (n + 1) b' (n + 1) 1 hb'rowsFilled

/-- Witness for C2 (amended) at a 2×1 grid with a filled bottom row. -/
theorem removeFilledRows_single_bottom_row_witness :
    Bitmap.removeFilledRows ⟨[[E], ["x"]]⟩ = (⟨[[E], [E]]⟩, 1) := by
  have hw := Bitmap.removeFilledRows_single_bottom_row ⟨[[E], ["x"]]⟩
    (by decide) (by decide)
    (fun r hr => by
      have h2 : r < 1 := hr
      have h3 : r = 0 := by omega
      subst h3
      decide)
  exact hw.trans (by decide)

/-! ### C5: rollback on failed moves -/

/-- `current` on a rebuilt shape reads the rotation bag. -/
theorem Shape.current_mk (rot : Bag Bitmap) (r c : Int) :
    (Shape.mk rot r c).current = rot.current := rfl

/-- `previous` undoes `next` on an in-range index (helper shared by the
bag and shape developments). -/
theorem Bag.next_previous_eq {α : Type} (bag : Bag α)
    (hidx : bag.index < bag.values.length) : bag.next.previous = bag := by
  obtain ⟨v, i⟩ := bag
  replace hidx : i < v.length := hidx
  simp only [Bag.next, Bag.previous, Bag.mk.injEq, and_true, true_and]
  rcases Nat.lt_or_ge (i + 1) v.length with h | h
  · rw [Nat.mod_eq_of_lt h]
    rw [show v.length + (i + 1) - 1 = v.length + i by omega, Nat.add_mod_left]
    exact Nat.mod_eq_of_lt hidx
  · have hii : i + 1 = v.length := by omega
    rw [hii, Nat.mod_self]
    rw [show v.length + 0 - 1 = v.length - 1 by omega]
    rw [Nat.mod_eq_of_lt (show v.length - 1 < v.length by omega)]
    omega

/-- `fitWithin` never touches the rotation bag. -/
theorem Shape.fitWithin_rotations (s : Shape) (board : Bitmap) :
    (s.fitWithin board).rotations = s.rotations := by
  unfold Shape.fitWithin
  by_cases h1 : s.colOffset < 0 <;>
    simp only [h1, if_true, if_false, reduceIte] <;>
    split <;> split <;> rfl

/-- A 4×4 board whose only filled cell is the top-left corner. -/
def cornerBoard : Bitmap :=
  ⟨[["x", E, E, E], [E, E, E, E], [E, E, E, E], [E, E, E, E]]⟩

/-- The I piece, horizontal, sitting on the bottom row of `cornerBoard`. -/
def shapeI3 : Shape := ⟨⟨BLOCK_I.allRotations, 0⟩, 3, 0⟩

/-- Counterexample to claim C5: rotating the bottom-row horizontal I piece
on `cornerBoard` fails (the clamped vertical piece hits the corner cell),
yet the piece's `rowOffset` is left at the fitWithin-clamped value 0, not
restored to 3. -/
theorem rotate_not_restored_counterexample :
    (shapeI3.rotate cornerBoard).2 = false ∧
      (shapeI3.rotate cornerBoard).1.rowOffset ≠ shapeI3.rowOffset := by
  decide

/-- Claim C5 as amended: when `left`, `right` or `down` returns false the
piece is exactly its old value; when `rotate` returns false the rotation
bag is restored (for an in-range rotation index), but the offsets keep the
values `fitWithin` clamped them to for the attempted rotation. -/
theorem Shape.move_rollback (s : Shape) (board : Bitmap)
    (hidx : s.rotations.index < s.rotations.values.length) :
    ((s.left board).2 = false → (s.left board).1 = s) ∧
    ((s.right board).2 = false → (s.right board).1 = s) ∧
    ((s.down board).2 = false → (s.down board).1 = s) ∧
    ((s.rotate board).2 = false →
      (s.rotate board).1.rotations = s.rotations ∧
      (s.rotate board).1.rowOffset =
        (Shape.fitWithin ⟨s.rotations.next, s.rowOffset, s.colOffset⟩ board).rowOffset ∧
      (s.rotate board).1.colOffset =
        (Shape.fitWithin ⟨s.rotations.next, s.rowOffset, s.colOffset⟩ board).colOffset) := by
  refine ⟨?_, ?_, ?_, ?_⟩
  · simp only [Shape.left, Shape.changeColOffset]
    split
    · intro _; rfl
    · intro hcontra; simp at hcontra
  · simp only [Shape.right, Shape.changeColOffset]
    split
    · intro _; rfl
    · intro hcontra; simp at hcontra
  · simp only [Shape.down]
    split
    · intro _; rfl
    · intro hcontra; simp at hcontra
  · simp only [Shape.rotate]
    have hrot : ({ s with rotations := s.rotations.next } : Shape) =
        ⟨s.rotations.next, s.rowOffset, s.colOffset⟩ := rfl
    rw [hrot]
    split
    · intro _
      refine ⟨?_, rfl, rfl⟩
      show (Shape.fitWithin ⟨s.rotations.next, s.rowOffset, s.colOffset⟩ board).rotations.previous =
        s.rotations
      rw [Shape.fitWithin_rotations]
      show s.rotations.next.previous = s.rotations
      exact Bag.next_previous_eq s.rotations hidx
    · intro hcontra; simp at hcontra

/-- Witness for C5 (amended): a blocked `left` on a 1×1 piece at the wall
is rolled back exactly. -/
theorem Shape.move_rollback_witness :
    (Shape.left ⟨⟨[⟨[["x"]]⟩], 0⟩, 0, 0⟩ ⟨[[E]]⟩).1 = (⟨⟨[⟨[["x"]]⟩], 0⟩, 0, 0⟩ : Shape) :=
  (Shape.move_rollback ⟨⟨[⟨[["x"]]⟩], 0⟩, 0, 0⟩ ⟨[[E]]⟩ (by decide)).1 (by decide)

/-! ### C4: rotation with clamping -/

/-- Closed form of `fitWithin`: rotations untouched, the row offset
clamped from above only, the column offset clamped below by 0 first and
then from above. -/
theorem Shape.fitWithin_eq (s : Shape) (board : Bitmap) :
    s.fitWithin board =
      ⟨s.rotations,
       if s.rowOffset + (s.current.rows : Int) > (board.rows : Int)
         then (board.rows : Int) - s.current.rows else s.rowOffset,
       if (if s.colOffset < 0 then 0 else s.colOffset) + (s.current.cols : Int) > (board.cols : Int)
         then (board.cols : Int) - s.current.cols
         else if s.colOffset < 0 then 0 else s.colOffset⟩ := by
  unfold Shape.fitWithin
  by_cases h1 : s.colOffset < 0
  · by_cases h2 : board.cols < s.rotations.current.cols <;>
      by_cases h3 : (board.rows : Int) < s.rowOffset + (s.rotations.current.rows : Int) <;>
      simp [h1, h2, h3, Shape.current]
  · by_cases h2 : (board.cols : Int) < s.colOffset + (s.rotations.current.cols : Int) <;>
      by_cases h3 : (board.rows : Int) < s.rowOffset + (s.rotations.current.rows : Int) <;>
      simp [h1, h2, h3, Shape.current]

/-- The clamp performed by `rotate`'s `fitWithin` call, in min/max form
(valid when the next rotation is no wider than the board). -/
theorem Shape.fitWithin_min_eq (s : Shape) (board : Bitmap)
    (hcc : (s.rotations.next.current.cols : Int) ≤ board.cols) :
    Shape.fitWithin ⟨s.rotations.next, s.rowOffset, s.colOffset⟩ board
      = ⟨s.rotations.next,
         min s.rowOffset ((board.rows : Int) - s.rotations.next.current.rows),
         min (max s.colOffset 0) ((board.cols : Int) - s.rotations.next.current.cols)⟩ := by
  rw [Shape.fitWithin_eq]
  show (⟨s.rotations.next,
      if s.rowOffset + (s.rotations.next.current.rows : Int) > (board.rows : Int)
        then (board.rows : Int) - s.rotations.next.current.rows else s.rowOffset,
      if (if s.colOffset < 0 then 0 else s.colOffset) + (s.rotations.next.current.cols : Int) >
          (board.cols : Int)
        then (board.cols : Int) - s.rotations.next.current.cols
        else if s.colOffset < 0 then 0 else s.colOffset⟩ : Shape) = _
  congr 1
  · rw [min_def]
    split_ifs <;> omega
  · rw [min_def, max_def]
    split_ifs <;> omega

/-- Claim C4: `rotate` advances to the next of the 4 rotation states,
clamps `colOffset` into `[0, board.cols - currentCols]` and `rowOffset`
only from above so that `rowOffset + currentRows ≤ board.rows`; it then
returns false (reverting to the previous rotation) exactly when the
clamped piece overlaps the board, and true otherwise. -/
theorem Shape.rotate_spec (s : Shape) (board : Bitmap)
    (hlen : s.rotations.values.length = 4) (hidx : s.rotations.index < 4)
    (hcc : (s.rotations.next.current.cols : Int) ≤ board.cols)
    (hcr : (s.rotations.next.current.rows : Int) ≤ board.rows) :
    (s.rotate board).1.rowOffset =
        min s.rowOffset ((board.rows : Int) - s.rotations.next.current.rows) ∧
    (s.rotate board).1.colOffset =
        min (max s.colOffset 0) ((board.cols : Int) - s.rotations.next.current.cols) ∧
    ((s.rotate board).2 = false ↔
      Shape.isOverlapping
        ⟨s.rotations.next,
         min s.rowOffset ((board.rows : Int) - s.rotations.next.current.rows),
         min (max s.colOffset 0) ((board.cols : Int) - s.rotations.next.current.cols)⟩
        board = true) ∧
    ((s.rotate board).2 = true →
      (s.rotate board).1.rotations.index = (s.rotations.index + 1) % 4) ∧
    ((s.rotate board).2 = false →
      (s.rotate board).1.rotations.index = s.rotations.index) := by
  have hfit2 := Shape.fitWithin_min_eq s board hcc
  have hrot_eq : s.rotate board =
      (if Shape.isOverlapping
          ⟨s.rotations.next,
           min s.rowOffset ((board.rows : Int) - s.rotations.next.current.rows),
           min (max s.colOffset 0) ((board.cols : Int) - s.rotations.next.current.cols)⟩
          board
        then (⟨s.rotations.next.previous,
               min s.rowOffset ((board.rows : Int) - s.rotations.next.current.rows),
               min (max s.colOffset 0) ((board.cols : Int) - s.rotations.next.current.cols)⟩,
              false)
        else (⟨s.rotations.next,
               min s.rowOffset ((board.rows : Int) - s.rotations.next.current.rows),
               min (max s.colOffset 0) ((board.cols : Int) - s.rotations.next.current.cols)⟩,
              true)) := by
    simp only [Shape.rotate]
    rw [show ({ s with rotations := s.rotations.next } : Shape) =
      ⟨s.rotations.next, s.rowOffset, s.colOffset⟩ from rfl]
    rw [hfit2]
  refine ⟨?_, ?_, ?_, ?_, ?_⟩
  · rw [hrot_eq]
    split <;> rfl
  · rw [hrot_eq]
    split <;> rfl
  · rw [hrot_eq]
    split
    · rename_i h
      simp [h]
    · rename_i h
      simp [h]
  · rw [hrot_eq]
    split
    · intro hcontra
      simp at hcontra
    · intro _
      show (s.rotations.index + 1) % s.rotations.values.length = (s.rotations.index + 1) % 4
      rw [hlen]
  · rw [hrot_eq]
    split
    · intro _
      show s.rotations.next.previous.index = s.rotations.index
      rw [Bag.next_previous_eq s.rotations (by omega)]
    · intro hcontra
      simp at hcontra

/-- Witness for C4: rotating the fresh I piece at the top of the empty
15×10 board succeeds, keeps the offsets at 0, and moves to rotation 1. -/
theorem Shape.rotate_spec_witness :
    (Shape.rotate ⟨⟨BLOCK_I.allRotations, 0⟩, 0, 0⟩ (Bitmap.emptyWithSize 15 10)).1.rowOffset = 0 ∧
    (Shape.rotate ⟨⟨BLOCK_I.allRotations, 0⟩, 0, 0⟩ (Bitmap.emptyWithSize 15 10)).1.colOffset = 0 ∧
    (Shape.rotate ⟨⟨BLOCK_I.allRotations, 0⟩, 0, 0⟩ (Bitmap.emptyWithSize 15 10)).2 = true ∧
    (Shape.rotate ⟨⟨BLOCK_I.allRotations, 0⟩, 0, 0⟩
      (Bitmap.emptyWithSize 15 10)).1.rotations.index = 1 := by
  have h := Shape.rotate_spec ⟨⟨BLOCK_I.allRotations, 0⟩, 0, 0⟩ (Bitmap.emptyWithSize 15 10)
    (by decide) (by decide) (by decide) (by decide)
  have h2 : (Shape.rotate ⟨⟨BLOCK_I.allRotations, 0⟩, 0, 0⟩
      (Bitmap.emptyWithSize 15 10)).2 = true := by
    cases hb : (Shape.rotate ⟨⟨BLOCK_I.allRotations, 0⟩, 0, 0⟩
        (Bitmap.emptyWithSize 15 10)).2 with
    | false => exact absurd (h.2.2.1.mp hb) (by decide)
    | true => rfl
  exact ⟨h.1.trans (by decide), h.2.1.trans (by decide), h2, (h.2.2.2.1 h2).trans (by decide)⟩

/-! ### C10: the containment invariant -/

/-- The active piece lies entirely within the board. -/
def fits (board : Bitmap) (s : Shape) : Prop :=
  0 ≤ s.colOffset ∧ s.colOffset + (s.current.cols : Int) ≤ (board.cols : Int) ∧
    0 ≤ s.rowOffset ∧ s.rowOffset + (s.current.rows : Int) ≤ (board.rows : Int)

instance (board : Bitmap) (s : Shape) : Decidable (fits board s) := by
  unfold fits
  infer_instance

/-- `isWithin` is exactly the three bounds it tests. -/
theorem Shape.isWithin_true_iff (s : Shape) (board : Bitmap) :
    s.isWithin board = true ↔
      0 ≤ s.colOffset ∧ s.colOffset + (s.current.cols : Int) ≤ (board.cols : Int) ∧
        s.rowOffset + (s.current.rows : Int) ≤ (board.rows : Int) := by
  unfold Shape.isWithin
  split_ifs with h1 h2 h3 <;> simp <;> omega

/-- Claim C10: the containment invariant `fits` (0 ≤ offsets, piece
extent inside the board) is established by `resetPosition` and preserved
by `left`, `right`, `down` and `rotate`, for any shape whose rotation
index is in range and all of whose rotations fit inside the board's
dimensions (true of the 7 standard shapes on the 15×10 board). -/
theorem Shape.within_invariant (board : Bitmap) (s : Shape)
    (hwf : s.rotations.index < s.rotations.values.length)
    (hdims : ∀ bm ∈ s.rotations.values,
      (bm.rows : Int) ≤ (board.rows : Int) ∧ (bm.cols : Int) ≤ (board.cols : Int)) :
    fits board (s.resetPosition board).1 ∧
    (fits board s → fits board (s.left board).1) ∧
    (fits board s → fits board (s.right board).1) ∧
    (fits board s → fits board (s.down board).1) ∧
    (fits board s → fits board (s.rotate board).1) := by
  have hlen0 : 0 < s.rotations.values.length := lt_of_le_of_lt (Nat.zero_le _) hwf
  have hcur_mem : s.rotations.current ∈ s.rotations.values := by
    show s.rotations.values.getD s.rotations.index default ∈ _
    rw [List.getD_eq_getElem _ _ hwf]
    apply List.getElem_mem
  have hnext_mem : s.rotations.next.current ∈ s.rotations.values := by
    show s.rotations.values.getD ((s.rotations.index + 1) % s.rotations.values.length)
      default ∈ _
    rw [List.getD_eq_getElem _ _ (Nat.mod_lt _ hlen0)]
    apply List.getElem_mem
  have hod := hdims _ hcur_mem
  have hnd := hdims _ hnext_mem
  have hmove : ∀ c : Int, fits board s → fits board (s.changeColOffset c board).1 := by
    intro c hfits
    simp only [Shape.changeColOffset]
    split
    · exact hfits
    · rename_i h
      have hw : ({ s with colOffset := c } : Shape).isWithin board = true := by
        cases hiw : ({ s with colOffset := c } : Shape).isWithin board with
        | true => rfl
        | false => simp [hiw] at h
      rw [Shape.isWithin_true_iff] at hw
      unfold fits at hfits ⊢
      simp only [Shape.current] at hfits ⊢
      simp only [Shape.current] at hw
      exact ⟨hw.1, hw.2.1, hfits.2.2.1, hw.2.2⟩
  refine ⟨?_, hmove _, hmove _, ?_, ?_⟩
  · unfold fits
    simp only [Shape.resetPosition, Shape.current]
    have hd0 : (0 : Int) ≤ (board.cols : Int) - s.rotations.current.cols := by
      have := hod.2
      omega
    have hf1 : 0 ≤ ((board.cols : Int) - s.rotations.current.cols).fdiv 2 :=
      Int.fdiv_nonneg hd0 (by omega)
    have hf2 : ((board.cols : Int) - s.rotations.current.cols).fdiv 2 ≤
        (board.cols : Int) - s.rotations.current.cols := by
      rw [Int.fdiv_eq_ediv _ (by omega)]
      exact Int.ediv_le_self _ hd0
    have := hod.1
    refine ⟨hf1, by omega, by omega, by omega⟩
  · intro hfits
    simp only [Shape.down]
    split
    · exact hfits
    · rename_i h
      have hw : ({ s with rowOffset := s.rowOffset + 1 } : Shape).isWithin board = true := by
        cases hiw : ({ s with rowOffset := s.rowOffset + 1 } : Shape).isWithin board with
        | true => rfl
        | false => simp [hiw] at h
      rw [Shape.isWithin_true_iff] at hw
      unfold fits at hfits ⊢
      simp only [Shape.current] at hfits ⊢
      simp only [Shape.current] at hw
      refine ⟨hw.1, hw.2.1, by omega, hw.2.2⟩
  · intro hfits
    simp only [Shape.rotate]
    rw [show ({ s with rotations := s.rotations.next } : Shape) =
      ⟨s.rotations.next, s.rowOffset, s.colOffset⟩ from rfl]
    rw [Shape.fitWithin_min_eq s board hnd.2]
    unfold fits at hfits
    simp only [Shape.current] at hfits
    have hr1 := hnd.1
    have hr2 := hnd.2
    have ho1 := hod.1
    have ho2 := hod.2
    split
    · have hrp : s.rotations.next.previous = s.rotations := Bag.next_previous_eq s.rotations hwf
      show fits board ⟨s.rotations.next.previous,
        min s.rowOffset ((board.rows : Int) - s.rotations.next.current.rows),
        min (max s.colOffset 0) ((board.cols : Int) - s.rotations.next.current.cols)⟩
      rw [hrp]
      unfold fits
      simp only [Shape.current]
      refine ⟨by omega, by omega, by omega, by omega⟩
    · show fits board ⟨s.rotations.next,
        min s.rowOffset ((board.rows : Int) - s.rotations.next.current.rows),
        min (max s.colOffset 0) ((board.cols : Int) - s.rotations.next.current.cols)⟩
      unfold fits
      simp only [Shape.current]
      refine ⟨by omega, by omega, by omega, by omega⟩

/-- Witness for C10: the fresh I piece on the empty 15×10 board fits
after a position reset, and still fits after a `down`. -/
theorem Shape.within_invariant_witness :
    fits (Bitmap.emptyWithSize 15 10)
        (Shape.resetPosition ⟨⟨BLOCK_I.allRotations, 0⟩, 0, 0⟩ (Bitmap.emptyWithSize 15 10)).1 ∧
    fits (Bitmap.emptyWithSize 15 10)
        (Shape.down ⟨⟨BLOCK_I.allRotations, 0⟩, 0, 0⟩ (Bitmap.emptyWithSize 15 10)).1 := by
  have h := Shape.within_invariant (Bitmap.emptyWithSize 15 10)
    ⟨⟨BLOCK_I.allRotations, 0⟩, 0, 0⟩ (by decide) (by decide)
  exact ⟨h.1, h.2.2.2.1 (by decide)⟩

/-! ### C1: landing, line clearing and scoring -/

/-- `nextShape` never touches the board or the counters. -/
theorem Game.nextShape_preserves (g : GameState) (rnd : Nat) :
    (Game.nextShape g rnd).board = g.board ∧ (Game.nextShape g rnd).lines = g.lines ∧
      (Game.nextShape g rnd).score = g.score := by
  simp only [Game.nextShape]
  split <;> exact ⟨rfl, rfl, rfl⟩

/-- Claim C1: on a landing (a `moveDown` whose `down` fails) the game
commits the piece, removes filled rows, adds the cleared count to the
cumulative line total, and then adds `totalLines * 10` — computed from the
already-updated cumulative total, even for 0 cleared rows — unless 4 rows
were cleared, in which case it adds a flat 1000.  Consequently three
successive single-line clears from `totalLines = 0` and `score = 0` add
+10, +20, +30 for a cumulative score of 60. -/
theorem Game.moveDown_landing_scoring :
    (∀ (g : GameState) (rnd : Nat),
      (g.shapes.current.down g.board).2 = false →
      (Game.moveDown g rnd).2 = false ∧
      (Game.moveDown g rnd).1.board = ((g.shapes.current.copyTo g.board).removeFilledRows).1 ∧
      (Game.moveDown g rnd).1.lines = g.lines + Game.landingCleared g ∧
      (Game.moveDown g rnd).1.score = g.score +
        (if Game.landingCleared g < 4 then (g.lines + Game.landingCleared g) * 10 else 1000)) ∧
    (∀ (g1 g2 g3 : GameState) (r1 r2 r3 : Nat),
      (g1.shapes.current.down g1.board).2 = false →
      (g2.shapes.current.down g2.board).2 = false →
      (g3.shapes.current.down g3.board).2 = false →
      Game.landingCleared g1 = 1 → Game.landingCleared g2 = 1 → Game.landingCleared g3 = 1 →
      g1.lines = 0 → g1.score = 0 →
      g2.lines = (Game.moveDown g1 r1).1.lines → g2.score = (Game.moveDown g1 r1).1.score →
      g3.lines = (Game.moveDown g2 r2).1.lines → g3.score = (Game.moveDown g2 r2).1.score →
      (Game.moveDown g1 r1).1.score = g1.score + 10 ∧
      (Game.moveDown g2 r2).1.score = g2.score + 20 ∧
      (Game.moveDown g3 r3).1.score = g3.score + 30 ∧
      (Game.moveDown g3 r3).1.score = 60) := by
  have key : ∀ (g : GameState) (rnd : Nat),
      (g.shapes.current.down g.board).2 = false →
      (Game.moveDown g rnd).2 = false ∧
      (Game.moveDown g rnd).1.board = ((g.shapes.current.copyTo g.board).removeFilledRows).1 ∧
      (Game.moveDown g rnd).1.lines = g.lines + Game.landingCleared g ∧
      (Game.moveDown g rnd).1.score = g.score +
        (if Game.landingCleared g < 4 then (g.lines + Game.landingCleared g) * 10 else 1000) := by
    intro g rnd hfail
    have hrw : Game.moveDown g rnd =
        (Game.nextShape { g with
          board := ((g.shapes.current.copyTo g.board).removeFilledRows).1,
          lines := g.lines + Game.landingCleared g,
          score := g.score + (if Game.landingCleared g < 4
            then (g.lines + Game.landingCleared g) * 10 else 1000) } rnd, false) := by
      simp only [Game.moveDown, hfail]
      rfl
    obtain ⟨hb, hl, hs⟩ := Game.nextShape_preserves { g with
      board := ((g.shapes.current.copyTo g.board).removeFilledRows).1,
      lines := g.lines + Game.landingCleared g,
      score := g.score + (if Game.landingCleared g < 4
        then (g.lines + Game.landingCleared g) * 10 else 1000) } rnd
    rw [hrw]
    exact ⟨rfl, hb, hl, hs⟩
  refine ⟨key, ?_⟩
  intro g1 g2 g3 r1 r2 r3 hf1 hf2 hf3 hc1 hc2 hc3 hl1 hs1 hl2 hs2 hl3 hs3
  obtain ⟨-, -, ha1, hb1⟩ := key g1 r1 hf1
  obtain ⟨-, -, ha2, hb2⟩ := key g2 r2 hf2
  obtain ⟨-, -, ha3, hb3⟩ := key g3 r3 hf3
  rw [hc1] at ha1 hb1
  rw [hc2] at ha2 hb2
  rw [hc3] at ha3 hb3
  norm_num at hb1 hb2 hb3
  refine ⟨?_, ?_, ?_, ?_⟩ <;> omega

/-! ### C8: hard drop termination -/

/-- A successful `down` moved the piece one row lower, within bounds. -/
theorem Shape.down_true (s : Shape) (board : Bitmap)
    (h : (s.down board).2 = true) :
    (s.down board).1 = { s with rowOffset := s.rowOffset + 1 } ∧
      s.rowOffset + 1 + (s.current.rows : Int) ≤ (board.rows : Int) := by
  simp only [Shape.down] at h ⊢
  by_cases hc : (!({ s with rowOffset := s.rowOffset + 1 } : Shape).isWithin board ||
      ({ s with rowOffset := s.rowOffset + 1 } : Shape).isOverlapping board) = true
  · rw [if_pos hc] at h
    simp at h
  · rw [if_neg hc] at h ⊢
    refine ⟨rfl, ?_⟩
    have hw : ({ s with rowOffset := s.rowOffset + 1 } : Shape).isWithin board = true := by
      cases hiw : ({ s with rowOffset := s.rowOffset + 1 } : Shape).isWithin board with
      | true => rfl
      | false => simp [hiw] at hc
    rw [Shape.isWithin_true_iff] at hw
    simp only [Shape.current] at hw ⊢
    omega

/-- Reading back the element written by `setCurrent`. -/
theorem Bag.setCurrent_current {α : Type} [Inhabited α] (bag : Bag α) (a : α)
    (hidx : bag.index < bag.values.length) : (bag.setCurrent a).current = a := by
  unfold Bag.setCurrent Bag.current
  rw [List.getD_eq_getElem _ _ (by simpa using hidx)]
  simp

/-- A `moveDown` that reports true was a plain successful `down`. -/
theorem Game.moveDown_true (g : GameState) (rnd : Nat)
    (h : (Game.moveDown g rnd).2 = true) :
    (g.shapes.current.down g.board).2 = true ∧
      (Game.moveDown g rnd).1 =
        { g with shapes := g.shapes.setCurrent (g.shapes.current.down g.board).1 } := by
  cases hd : (g.shapes.current.down g.board).2 with
  | false =>
    simp [Game.moveDown, hd] at h
  | true =>
    refine ⟨rfl, ?_⟩
    simp [Game.moveDown, hd]

/-- From a legal position, the hard-drop loop reaches a failing
`moveDown` within the fuel, and the number of `moveDown` calls is at most
the remaining fall height plus one. -/
theorem Game.throwDownAux_some (fuel : Nat) :
    ∀ (g : GameState) (rnd : Nat),
      g.shapes.index < g.shapes.values.length →
      0 ≤ g.shapes.current.rowOffset →
      g.shapes.current.rowOffset + (g.shapes.current.current.rows : Int) ≤ (g.board.rows : Int) →
      ((g.board.rows : Int) - g.shapes.current.current.rows -
        g.shapes.current.rowOffset).toNat < fuel →
      ∃ p, Game.throwDownAux fuel g rnd = some p ∧
        p.2 ≤ ((g.board.rows : Int) - g.shapes.current.current.rows -
          g.shapes.current.rowOffset).toNat + 1 := by
  induction fuel with
  | zero =>
    intro g rnd _ _ _ hm
    omega
  | succ fuel ih =>
    intro g rnd hidx h0 hub hm
    cases hmd : (Game.moveDown g rnd).2 with
    | false =>
      refine ⟨((Game.moveDown g rnd).1, 1), ?_, by omega⟩
      simp [Game.throwDownAux, hmd]
    | true =>
      obtain ⟨hdt, hres⟩ := Game.moveDown_true g rnd hmd
      obtain ⟨hdshape, hdbound⟩ := Shape.down_true g.shapes.current g.board hdt
      have hcur' : (Game.moveDown g rnd).1.shapes.current =
          { g.shapes.current with rowOffset := g.shapes.current.rowOffset + 1 } := by
        rw [hres]
        show (g.shapes.setCurrent (g.shapes.current.down g.board).1).current = _
        rw [hdshape, Bag.setCurrent_current _ _ hidx]
      have hidx' : (Game.moveDown g rnd).1.shapes.index <
          (Game.moveDown g rnd).1.shapes.values.length := by
        rw [hres]
        show g.shapes.index < (g.shapes.values.set g.shapes.index _).length
        simpa using hidx
      have hboard' : (Game.moveDown g rnd).1.board = g.board := by
        rw [hres]
      have h0' : 0 ≤ (Game.moveDown g rnd).1.shapes.current.rowOffset := by
        rw [hcur']
        show 0 ≤ g.shapes.current.rowOffset + 1
        omega
      have hub' : (Game.moveDown g rnd).1.shapes.current.rowOffset +
          ((Game.moveDown g rnd).1.shapes.current.current.rows : Int) ≤
          ((Game.moveDown g rnd).1.board.rows : Int) := by
        rw [hcur', hboard']
        show g.shapes.current.rowOffset + 1 + (g.shapes.current.current.rows : Int) ≤
          (g.board.rows : Int)
        exact hdbound
      have hm' : (((Game.moveDown g rnd).1.board.rows : Int) -
          (Game.moveDown g rnd).1.shapes.current.current.rows -
          (Game.moveDown g rnd).1.shapes.current.rowOffset).toNat < fuel := by
        rw [hcur', hboard']
        show ((g.board.rows : Int) - g.shapes.current.current.rows -
          (g.shapes.current.rowOffset + 1)).toNat < fuel
        omega
      obtain ⟨p, hp, hle⟩ := ih (Game.moveDown g rnd).1 rnd hidx' h0' hub' hm'
      refine ⟨(p.1, p.2 + 1), ?_, ?_⟩
      · simp only [Game.throwDownAux, hmd, if_true]
        rw [hp]
        rfl
      · rw [hcur', hboard'] at hle
        have hle2 : p.2 ≤ ((g.board.rows : Int) - g.shapes.current.current.rows -
            (g.shapes.current.rowOffset + 1)).toNat + 1 := hle
        omega

/-- Claim C8: from every legal piece position (nonnegative row offset,
piece inside the board, at least one row tall), the hard drop
`while (moveDown()) {}` terminates within `board.rows` calls of
`moveDown`; the landing processing is the body of the one final failing
call, so it runs exactly once. -/
theorem Game.throwDown_terminates (g : GameState) (rnd : Nat)
    (hidx : g.shapes.index < g.shapes.values.length)
    (h0 : 0 ≤ g.shapes.current.rowOffset)
    (hub : g.shapes.current.rowOffset + (g.shapes.current.current.rows : Int) ≤
      (g.board.rows : Int))
    (hcr : 1 ≤ g.shapes.current.current.rows) :
    Game.throwDownAux g.board.rows g rnd ≠ none ∧
      Game.landingCalls (Game.throwDownAux g.board.rows g rnd) ≤ g.board.rows := by
  have hm : ((g.board.rows : Int) - g.shapes.current.current.rows -
      g.shapes.current.rowOffset).toNat < g.board.rows := by omega
  obtain ⟨p, hp, hle⟩ := Game.throwDownAux_some g.board.rows g rnd hidx h0 hub hm
  rw [hp]
  refine ⟨by simp, ?_⟩
  show p.2 ≤ g.board.rows
  omega

/-- Witness for C8: a 1×1 piece at the top of the empty 2×1 board lands
after 2 `moveDown` calls. -/
theorem Game.throwDown_terminates_witness :
    Game.throwDownAux 2
        ⟨Bitmap.emptyWithSize 2 1, ⟨[⟨⟨[⟨[["x"]]⟩], 0⟩, 0, 0⟩], 0⟩, GState.playing, 0, 0⟩ 0 ≠
      none ∧
    Game.landingCalls (Game.throwDownAux 2
      ⟨Bitmap.emptyWithSize 2 1, ⟨[⟨⟨[⟨[["x"]]⟩], 0⟩, 0, 0⟩], 0⟩, GState.playing, 0, 0⟩ 0) ≤ 2 :=
  Game.throwDown_terminates
    ⟨Bitmap.emptyWithSize 2 1, ⟨[⟨⟨[⟨[["x"]]⟩], 0⟩, 0, 0⟩], 0⟩, GState.playing, 0, 0⟩ 0
    (by decide) (by decide) (by decide) (by decide)

/-- A 1×1 piece sitting on the bottom row of a 2×1 board whose bottom
row it completes (first landing of the scoring scenario). -/
def landing1 : GameState :=
  ⟨⟨[[E], ["x"]]⟩, ⟨[⟨⟨[⟨[["x"]]⟩], 0⟩, 1, 0⟩], 0⟩, GState.playing, 0, 0⟩

/-- The same landing position with the counters after one clear. -/
def landing2 : GameState :=
  ⟨⟨[[E], [E]]⟩, ⟨[⟨⟨[⟨[["x"]]⟩], 0⟩, 1, 0⟩], 0⟩, GState.playing, 1, 10⟩

/-- The same landing position with the counters after two clears. -/
def landing3 : GameState :=
  ⟨⟨[[E], [E]]⟩, ⟨[⟨⟨[⟨[["x"]]⟩], 0⟩, 1, 0⟩], 0⟩, GState.playing, 2, 30⟩

/-- Witness for C1: the three successive single-line clears score
+10, +20, +30, totalling 60. -/
theorem Game.moveDown_landing_scoring_witness :
    (Game.moveDown landing1 0).1.score = 10 ∧
    (Game.moveDown landing2 0).1.score = 30 ∧
    (Game.moveDown landing3 0).1.score = 60 := by
  have h := Game.moveDown_landing_scoring.2 landing1 landing2 landing3 0 0 0
    (by decide) (by decide) (by decide) (by decide) (by decide) (by decide)
    (by decide) (by decide) (by decide) (by decide) (by decide) (by decide)
  exact ⟨h.1.trans (by decide), h.2.1.trans (by decide), h.2.2.2⟩

end Blocks
